import Mathlib

set_option maxHeartbeats 1000000

namespace StaticServer

/-!
Shallow embedding of the static-asset HTTP server found at the bottom of
`src/assets/vironax-localization-fix.js` (the `http`/`fs`/`path` module:
`PORT`, `MIME_TYPES`, `resolveFilePath`, and the request handler).

Filesystem paths are modelled as absolute segment lists (`List String`);
the strings taken from the request line are `String`/`List Char`.  The
string-level operations (`split('?')`, `decodeURIComponent`,
`path.normalize`, the `replace(/^([.][.][\/\\])+/, '')` strip,
`path.join`, `path.extname`, `toLowerCase`) are modelled on POSIX
semantics, which is what `path` provides on the Linux host the server
runs on.
-/

/-- Result of `fs.statSync` on a path: regular file, directory, some other
node kind (socket, fifo, ...), missing (`ENOENT`), or any other
filesystem error (which `statSync` reports by throwing). -/
inductive StatR
  | file
  | dir
  | other
  | noent
  | error
  deriving DecidableEq

/-- Abstract filesystem state: what `fs.statSync` reports for each
absolute path (given as a list of segments). -/
abbrev Fs := List String → StatR

/-- `fs.existsSync`: true exactly when `statSync` succeeds (`existsSync`
swallows every error, returning `false`). -/
def fsExists (fs : Fs) (p : List String) : Bool :=
  match fs p with
  | StatR.file => true
  | StatR.dir => true
  | StatR.other => true
  | StatR.noent => false
  | StatR.error => false

/-- `requestPath.split('?')[0]`: everything before the first `?`. -/
def stripQueryCL (cs : List Char) : List Char :=
  cs.takeWhile (fun c => c != '?')

/-- Value of a hex digit, as used by `decodeURIComponent` escapes. -/
def hexVal? (c : Char) : Option Nat :=
  if '0' ≤ c ∧ c ≤ '9' then some (c.toNat - 48)
  else if 'a' ≤ c ∧ c ≤ 'f' then some (c.toNat - 87)
  else if 'A' ≤ c ∧ c ≤ 'F' then some (c.toNat - 55)
  else none

/-- `decodeURIComponent`: a `%` escape followed by two hex digits decodes
to the escaped code unit; a `%` not followed by two hex digits is a
malformed escape sequence and makes decoding fail (`URIError`).  Other
characters pass through unchanged. -/
def percentDecodeCL : List Char → Option (List Char)
  | [] => some []
  | '%' :: c1 :: c2 :: rest =>
    match hexVal? c1, hexVal? c2 with
    | some h1, some h2 =>
      (percentDecodeCL rest).map (fun ds => Char.ofNat (16 * h1 + h2) :: ds)
    | _, _ => none
  | ['%', _] => none
  | ['%'] => none
  | c :: rest => (percentDecodeCL rest).map (fun ds => c :: ds)

/-- Split a character list on `/`, auxiliary: returns the first segment
(as characters) and the remaining segments. -/
def splitSlashAux : List Char → List Char × List String
  | [] => ([], [])
  | c :: rest =>
    let r := splitSlashAux rest
    if c = '/' then ([], String.mk r.1 :: r.2) else (c :: r.1, r.2)

/-- `String.prototype.split('/')` on a character list. -/
def splitSlash (cs : List Char) : List String :=
  String.mk (splitSlashAux cs).1 :: (splitSlashAux cs).2

/-- Segment resolution step of Node's `path.posix.normalize`: empty and
`.` segments are dropped, `..` pops the previous segment; when
`allowAbove` is set (relative paths) unmatched `..` segments accumulate
at the front, otherwise (absolute paths) they are dropped at the root. -/
def normSegs (allowAbove : Bool) : List String → List String → List String
  | acc, [] => acc
  | acc, s :: rest =>
    if s = "" ∨ s = "." then normSegs allowAbove acc rest
    else if s = ".." then
      match acc.getLast? with
      | none => normSegs allowAbove (if allowAbove then [".."] else []) rest
      | some t =>
        if t = ".." then normSegs allowAbove (acc ++ [".."]) rest
        else normSegs allowAbove acc.dropLast rest
    else normSegs allowAbove (acc ++ [s]) rest

/-- Flatten segments back into a path string with `/` separators. -/
def flattenSegs : List String → List Char
  | [] => []
  | [s] => s.data
  | s :: rest => s.data ++ '/' :: flattenSegs rest

/-- Reassembly step of Node's `path.posix.normalize`: turn the resolved
segments back into a path string, restoring absoluteness and the
trailing separator, with the degenerate results `/`, `./`, `.` when no
segment is left. -/
def normalizeAssemble (isAbs trailing : Bool) (segs : List String) : List Char :=
  match segs with
  | [] => if isAbs then ['/'] else if trailing then ['.', '/'] else ['.']
  | _ =>
    let body := flattenSegs segs
    let body2 := if trailing then body ++ ['/'] else body
    if isAbs then '/' :: body2 else body2

/-- Node's `path.posix.normalize`: collapse `.`/`..` and duplicate
separators, keep absoluteness and the trailing separator, return `.` (or
`./`, `/`) when everything cancels. -/
def normalizeCL (p : List Char) : List Char :=
  match p with
  | [] => ['.']
  | _ =>
    let isAbs : Bool := p.head? == some '/'
    let trailing : Bool := p.getLast? == some '/'
    normalizeAssemble isAbs trailing (normSegs (!isAbs) [] (splitSlash p))

/-- The sanitization `replace(/^([.][.][\/\\])+/, '')`: repeatedly strip
a leading `../` or `..\` triple. -/
def stripDD : List Char → List Char
  | '.' :: '.' :: '/' :: rest => stripDD rest
  | '.' :: '.' :: '\\' :: rest => stripDD rest
  | cs => cs

/-- Lines 327-329 of the source: strip the query string, percent-decode
(`none` when `decodeURIComponent` throws), `path.normalize`, strip
leading parent-directory segments, and rewrite the bare root path `/` to
`/index.html`. -/
def relativePathOf (requestPath : List Char) : Option (List Char) :=
  (percentDecodeCL (stripQueryCL requestPath)).map (fun dp =>
    let normalizedPath := stripDD (normalizeCL dp)
    if normalizedPath = ['/'] then "/index.html".data else normalizedPath)

/-- `path.join(base, rel)` for an absolute, already-normalized `base`
given as segments: append `rel`'s segments, dropping empty and `.`
segments, `..` popping one level (clamped at the filesystem root). -/
def joinSegs (base : List String) : List String → List String
  | [] => base
  | s :: rest =>
    if s = "" ∨ s = "." then joinSegs base rest
    else if s = ".." then joinSegs base.dropLast rest
    else joinSegs (base ++ [s]) rest

/-- `PUBLIC_DIR = path.join(ROOT_DIR, 'public')`. -/
def PUBLIC_DIR (rootDir : List String) : List String :=
  joinSegs rootDir ["public"]

/-- The two candidate paths of `resolveFilePath`, in priority order:
`path.join(PUBLIC_DIR, relativePath)`, then
`path.join(ROOT_DIR, relativePath)`. -/
def candidatesOf (rootDir : List String) (rel : List Char) : List (List String) :=
  [joinSegs (PUBLIC_DIR rootDir) (splitSlash rel),
   joinSegs rootDir (splitSlash rel)]

/-- The two ways `resolveFilePath` can throw: `decodeURIComponent`
throwing `URIError`, or `fs.statSync` throwing an error whose code is
not `ENOENT`. -/
inductive ResolveErr
  | uriError
  | fsError
  deriving DecidableEq

/-- The candidate loop of `resolveFilePath` (source lines 335-352): for
each candidate, `statSync` — a non-`ENOENT` error propagates; a regular
file is returned at once; for a directory, `<candidate>/index.html` is
returned when `existsSync` reports it; otherwise (missing, neither file
nor directory, or directory without index) continue with the next
candidate.  `none` when no candidate yields a path. -/
def probeCandidates (fs : Fs) : List (List String) → Except ResolveErr (Option (List String))
  | [] => Except.ok none
  | c :: rest =>
    match fs c with
    | StatR.error => Except.error ResolveErr.fsError
    | StatR.noent => probeCandidates fs rest
    | StatR.file => Except.ok (some c)
    | StatR.dir =>
      let indexPath := joinSegs c ["index.html"]
      if fsExists fs indexPath then Except.ok (some indexPath)
      else probeCandidates fs rest
    | StatR.other => probeCandidates fs rest

/-- `resolveFilePath` (source lines 326-355). -/
def resolveFilePath (fs : Fs) (rootDir : List String) (requestPath : String) :
    Except ResolveErr (Option (List String)) :=
  match relativePathOf requestPath.data with
  | none => Except.error ResolveErr.uriError
  | some rel => probeCandidates fs (candidatesOf rootDir rel)

/-- `MIME_TYPES` (source lines 312-324). -/
def MIME_TYPES : List (String × String) :=
  [(".html", "text/html; charset=utf-8"),
   (".css", "text/css; charset=utf-8"),
   (".js", "application/javascript; charset=utf-8"),
   (".json", "application/json; charset=utf-8"),
   (".png", "image/png"),
   (".jpg", "image/jpeg"),
   (".jpeg", "image/jpeg"),
   (".gif", "image/gif"),
   (".svg", "image/svg+xml"),
   (".ico", "image/x-icon"),
   (".txt", "text/plain; charset=utf-8")]

/-- `MIME_TYPES[ext] || 'application/octet-stream'`. -/
def mimeLookup (ext : String) : String :=
  (MIME_TYPES.lookup ext).getD "application/octet-stream"

/-- ASCII lowercasing of one character (`toLowerCase` restricted to the
ASCII range, which covers every key of the MIME table). -/
def asciiLower (c : Char) : Char :=
  if 'A' ≤ c ∧ c ≤ 'Z' then Char.ofNat (c.toNat + 32) else c

/-- ASCII `toLowerCase` on a character list. -/
def lowerCL (cs : List Char) : List Char :=
  cs.map asciiLower

/-- Node's `path.extname` on a slash-free basename: the suffix starting
at the last dot, except that a dotless name, a name whose only dot is
its first character, and the special name `..` give the empty string. -/
def extnameCL (cs : List Char) : List Char :=
  let t := (cs.reverse.takeWhile (fun c => c != '.')).length
  if t = cs.length then []
  else if cs.length = t + 1 then []
  else if cs = ['.', '.'] then []
  else cs.drop (cs.length - t - 1)

/-- `path.extname(filePath).toLowerCase()` for a segment-list path:
`extname` of a path is `extname` of its final segment. -/
def extOfPath (p : List String) : String :=
  String.mk (lowerCL (extnameCL (p.getLastD "").data))

/-- `MIME_TYPES[path.extname(filePath).toLowerCase()] || 'application/octet-stream'`
(source lines 379-380). -/
def contentTypeFor (p : List String) : String :=
  mimeLookup (extOfPath p)

/-- What the handler sends back: a fixed text body, or the streamed
bytes of a file. -/
inductive ResponseBody
  | text (s : String)
  | fileStream (p : List String)
  deriving DecidableEq

/-- Observable outcome of handling one request: the single response the
client receives (status, content type, body). -/
inductive ServedResult
  | response (status : Nat) (contentType : String) (body : ResponseBody)
  deriving DecidableEq

/-- State of `res`: the currently buffered — not yet flushed — status
line and headers, if any.  Nothing reaches the client until the first
body write or `end`. -/
structure ResState where
  header : Option (Nat × String)
  deriving DecidableEq

/-- `res.writeHead` as used by this handler (plain `writeHead` calls
only, never `res.setHeader`): the status line and headers are serialized
into the response buffer, replacing any previously buffered header that
has not been flushed yet.  (Node's `ERR_HTTP_HEADERS_SENT` throw lives
on the `setHeader`/progressive-API slow path, which this handler never
takes.) -/
def writeHead (r : ResState) (status : Nat) (contentType : String) : ResState :=
  { r with header := some (status, contentType) }

/-- `res.end(body)`: flush the buffered status line and headers,
followed by the body.  This handler always buffers a header before
ending, so the implicit-header `none` arm is never reached here. -/
def endResponse (r : ResState) (body : ResponseBody) : ServedResult :=
  match r.header with
  | some (status, contentType) => ServedResult.response status contentType body
  | none => ServedResult.response 200 "" body

/-- The handler's continuation once `resolveFilePath` has run (source
lines 364-388).  On a resolved file the code evaluates
`res.writeHead(200, ...)` synchronously as the argument of `.pipe(...)`,
which only buffers the header — nothing is flushed until the stream
delivers data.  When the read stream errors before any data was piped
(`streamError`, e.g. the open failing), the error listener's
`res.writeHead(500, ...)` replaces the still-unflushed 200 header and
`res.end('Internal Server Error')` delivers a single well-formed 500
response. -/
def respondFor (result : Except ResolveErr (Option (List String)))
    (streamError : Bool) : ServedResult :=
  match result with
  | Except.error _ =>
    ServedResult.response 500 "text/plain; charset=utf-8"
      (ResponseBody.text "Internal Server Error")
  | Except.ok none =>
    ServedResult.response 404 "text/plain; charset=utf-8"
      (ResponseBody.text "Not Found")
  | Except.ok (some filePath) =>
    let contentType := contentTypeFor filePath
    let res1 := writeHead { header := none } 200 contentType
    if streamError then
      endResponse (writeHead res1 500 "text/plain; charset=utf-8")
        (ResponseBody.text "Internal Server Error")
    else endResponse res1 (ResponseBody.fileStream filePath)

/-- The full request handler (source lines 357-388).  `url = none`
models a request without a `req.url`; `!req.url` is also true for the
empty string. -/
def handleRequest (fs : Fs) (rootDir : List String) (url : Option String)
    (streamError : Bool) : ServedResult :=
  match url with
  | none =>
    ServedResult.response 400 "text/plain; charset=utf-8"
      (ResponseBody.text "Bad Request")
  | some u =>
    if u = "" then
      ServedResult.response 400 "text/plain; charset=utf-8"
        (ResponseBody.text "Bad Request")
    else respondFor (resolveFilePath fs rootDir u) streamError

/-- JavaScript whitespace skipped by `parseInt`. -/
def jsWhitespace (c : Char) : Bool :=
  c = ' ' ∨ c = '\t' ∨ c = '\n' ∨ c = '\r' ∨ c = '\x0b' ∨ c = '\x0c'

/-- Value of a maximal nonempty leading run of decimal digits; `none`
(NaN) when there is no leading digit. -/
def digitsVal (cs : List Char) : Option Nat :=
  let ds := cs.takeWhile Char.isDigit
  if ds = [] then none
  else some (ds.foldl (fun a c => 10 * a + (c.toNat - 48)) 0)

/-- `Number.parseInt(s, 10)`: skip whitespace, optional sign, then the
longest run of decimal digits; `none` models NaN. -/
def jsParseIntCL (cs : List Char) : Option Int :=
  match cs.dropWhile jsWhitespace with
  | '-' :: rest => (digitsVal rest).map (fun n => -(n : Int))
  | '+' :: rest => (digitsVal rest).map (fun n => (n : Int))
  | cs2 => (digitsVal cs2).map (fun n => (n : Int))

/-- `const PORT = Number.parseInt(process.env.PORT, 10) || 3000`
(source line 308): `parseInt` of an absent variable is NaN; `||`
replaces every falsy value — NaN and `0` alike — by 3000. -/
def PORT (env : Option String) : Int :=
  match env with
  | none => 3000
  | some s =>
    match jsParseIntCL s.data with
    | none => 3000
    | some v => if v = 0 then 3000 else v

/-- `p` lies under the directory `base` (`base` is an initial run of
`p`'s segments). -/
def underDir (base p : List String) : Prop :=
  p.take base.length = base

instance (base p : List String) : Decidable (underDir base p) := by
  unfold underDir
  infer_instance

/-- A normal path segment: not empty, not `.`, not `..`, slash-free. -/
def goodSeg (s : String) : Prop :=
  s ≠ "" ∧ s ≠ "." ∧ s ≠ ".." ∧ '/' ∉ s.data

/-- Shape invariant of `normSegs` output: a run of leading `..` segments
followed by normal segments; in absolute mode (`allowAbove = false`) the
run is empty. -/
def segShape (allowAbove : Bool) (l : List String) : Prop :=
  ∃ k cl, l = List.replicate k ".." ++ cl ∧ (∀ s ∈ cl, goodSeg s) ∧
    (allowAbove = false → k = 0)

/-- No `..` segment appears when `x` is split on `/`. -/
def noDotDotSegs (x : List Char) : Prop :=
  ∀ s ∈ splitSlash x, s ≠ ".."

instance (x : List Char) : Decidable (noDotDotSegs x) := by
  unfold noDotDotSegs
  infer_instance

/-- The flattened tail after a path's first segment: a separator plus the
remaining segments (when any), then the optional trailing slash. -/
def tailFlat (cl : List String) (trail : List Char) : List Char :=
  (if cl = [] then [] else '/' :: flattenSegs cl) ++ trail

/-! ### Concrete fixtures used to instantiate the theorems -/

/-- A sample server location: `__dirname = /srv/app`. -/
def exRoot : List String := ["srv", "app"]

/-- A filesystem with no entries at all. -/
def fsEmpty : Fs := fun _ => StatR.noent

/-- A small site: `/srv/app/public/index.html` and
`/srv/app/public/app.js` are regular files. -/
def fsSite : Fs := fun p =>
  if p = ["srv", "app", "public", "index.html"] then StatR.file
  else if p = ["srv", "app", "public", "app.js"] then StatR.file
  else if p = ["srv", "app", "public"] then StatR.dir
  else if p = ["srv", "app"] then StatR.dir
  else StatR.noent

/-- A filesystem where the parent of the root directory holds an
`index.html`, while the root directory itself has none. -/
def fsEscape : Fs := fun p =>
  if p = ["srv", "index.html"] then StatR.file
  else if p = ["srv", "app"] then StatR.dir
  else if p = ["srv"] then StatR.dir
  else StatR.noent

/-- A filesystem where `public/foo` is a directory whose `index.html`
entry is itself a directory, not a regular file. -/
def fsDirIndex : Fs := fun p =>
  if p = ["srv", "app", "public", "foo"] then StatR.dir
  else if p = ["srv", "app", "public", "foo", "index.html"] then StatR.dir
  else StatR.noent

/-- A filesystem where `public/foo.png` is a directory containing a
regular-file `index.html`. -/
def fsPng : Fs := fun p =>
  if p = ["srv", "app", "public", "foo.png"] then StatR.dir
  else if p = ["srv", "app", "public", "foo.png", "index.html"] then StatR.file
  else StatR.noent

/-! ### Helper lemmas about the path model -/

theorem underDir_append (base t : List String) : underDir base (base ++ t) := by
  unfold underDir
  exact List.take_left base t

theorem joinSegs_nil (base : List String) : joinSegs base [] = base := rfl

theorem joinSegs_cons (base : List String) (s : String) (rest : List String) :
    joinSegs base (s :: rest) =
      if s = "" ∨ s = "." then joinSegs base rest
      else if s = ".." then joinSegs base.dropLast rest
      else joinSegs (base ++ [s]) rest := rfl

theorem joinSegs_index (c : List String) :
    joinSegs c ["index.html"] = c ++ ["index.html"] := by
  rw [joinSegs_cons, if_neg (by decide), if_neg (by decide), joinSegs_nil]

theorem joinSegs_no_dotdot :
    ∀ (l : List String) (base : List String),
    (∀ s ∈ l, s ≠ "..") → ∃ t, joinSegs base l = base ++ t := by
  intro l
  induction l with
  | nil => intro base _; exact ⟨[], by simp [joinSegs]⟩
  | cons s rest ih =>
    intro base h
    have hs : s ≠ ".." := h s (by simp)
    have hrest : ∀ x ∈ rest, x ≠ ".." := fun x hx => h x (List.mem_cons_of_mem _ hx)
    by_cases hse : s = "" ∨ s = "."
    · rw [joinSegs_cons, if_pos hse]
      exact ih base hrest
    · rw [joinSegs_cons, if_neg hse, if_neg hs]
      obtain ⟨t, ht⟩ := ih (base ++ [s]) hrest
      exact ⟨[s] ++ t, by rw [ht, List.append_assoc]⟩

theorem probeCandidates_ok_shape (fs : Fs) :
    ∀ (cs : List (List String)) (p : List String),
    probeCandidates fs cs = Except.ok (some p) →
    ∃ c ∈ cs, p = c ∨ p = c ++ ["index.html"] := by
  intro cs
  induction cs with
  | nil => intro p h; simp [probeCandidates] at h
  | cons c rest ih =>
    intro p h
    unfold probeCandidates at h
    cases hfc : fs c <;> rw [hfc] at h
    · simp at h
      exact ⟨c, by simp, Or.inl h.symm⟩
    · rw [joinSegs_index] at h
      by_cases hex : fsExists fs (c ++ ["index.html"]) = true
      · rw [if_pos hex] at h
        simp at h
        exact ⟨c, by simp, Or.inr h.symm⟩
      · rw [if_neg hex] at h
        obtain ⟨c', hc', hp⟩ := ih p h
        exact ⟨c', List.mem_cons_of_mem _ hc', hp⟩
    · obtain ⟨c', hc', hp⟩ := ih p h
      exact ⟨c', List.mem_cons_of_mem _ hc', hp⟩
    · obtain ⟨c', hc', hp⟩ := ih p h
      exact ⟨c', List.mem_cons_of_mem _ hc', hp⟩
    · simp at h

theorem probeCandidates_ok_exists (fs : Fs) :
    ∀ (cs : List (List String)) (p : List String),
    probeCandidates fs cs = Except.ok (some p) →
    fsExists fs p = true := by
  intro cs
  induction cs with
  | nil => intro p h; simp [probeCandidates] at h
  | cons c rest ih =>
    intro p h
    unfold probeCandidates at h
    cases hfc : fs c <;> rw [hfc] at h
    · simp at h
      rw [← h]
      simp [fsExists, hfc]
    · rw [joinSegs_index] at h
      by_cases hex : fsExists fs (c ++ ["index.html"]) = true
      · rw [if_pos hex] at h
        simp at h
        rw [← h]
        exact hex
      · rw [if_neg hex] at h
        exact ih p h
    · exact ih p h
    · exact ih p h
    · simp at h

theorem mk_nil_eq : String.mk [] = "" := rfl

theorem splitSlashAux_nil : splitSlashAux [] = ([], []) := rfl

theorem splitSlashAux_cons (c : Char) (rest : List Char) :
    splitSlashAux (c :: rest) =
      if c = '/' then ([], String.mk (splitSlashAux rest).1 :: (splitSlashAux rest).2)
      else (c :: (splitSlashAux rest).1, (splitSlashAux rest).2) := rfl

theorem splitSlash_slash (cs : List Char) :
    splitSlash ('/' :: cs) = "" :: splitSlash cs := by
  unfold splitSlash
  rw [splitSlashAux_cons, if_pos rfl]

theorem splitSlashAux_no_slash :
    ∀ (cs : List Char), '/' ∉ cs → splitSlashAux cs = (cs, []) := by
  intro cs
  induction cs with
  | nil => intro _; rfl
  | cons c rest ih =>
    intro h
    have hc : ¬ c = '/' := fun hceq => h (by rw [hceq]; exact List.mem_cons_self _ _)
    have hr : '/' ∉ rest := fun hm => h (List.mem_cons_of_mem _ hm)
    rw [splitSlashAux_cons, if_neg hc, ih hr]

theorem splitSlash_no_slash (cs : List Char) (h : '/' ∉ cs) :
    splitSlash cs = [String.mk cs] := by
  unfold splitSlash
  rw [splitSlashAux_no_slash cs h]

theorem splitSlashAux_append :
    ∀ (a b : List Char), '/' ∉ a →
    splitSlashAux (a ++ '/' :: b) =
      (a, String.mk (splitSlashAux b).1 :: (splitSlashAux b).2) := by
  intro a
  induction a with
  | nil =>
    intro b _
    rw [List.nil_append, splitSlashAux_cons, if_pos rfl]
  | cons c rest ih =>
    intro b h
    have hc : ¬ c = '/' := fun hceq => h (by rw [hceq]; exact List.mem_cons_self _ _)
    have hr : '/' ∉ rest := fun hm => h (List.mem_cons_of_mem _ hm)
    rw [List.cons_append, splitSlashAux_cons, if_neg hc, ih b hr]

theorem splitSlash_append (a b : List Char) (h : '/' ∉ a) :
    splitSlash (a ++ '/' :: b) = String.mk a :: splitSlash b := by
  unfold splitSlash
  rw [splitSlashAux_append a b h]

theorem mem_splitSlash_no_slash :
    ∀ (cs : List Char) (s : String), s ∈ splitSlash cs → '/' ∉ s.data := by
  intro cs
  induction cs with
  | nil =>
    intro s hs
    rw [show splitSlash [] = [String.mk []] from rfl] at hs
    simp at hs
    rw [hs]
    intro hmem
    exact absurd hmem (List.not_mem_nil _)
  | cons c rest ih =>
    intro s hs
    by_cases hc : c = '/'
    · rw [hc, splitSlash_slash] at hs
      rcases List.mem_cons.mp hs with h1 | h2
      · rw [h1]; intro hmem; exact absurd hmem (List.not_mem_nil _)
      · exact ih s h2
    · unfold splitSlash at hs
      rw [splitSlashAux_cons, if_neg hc] at hs
      rcases List.mem_cons.mp hs with h1 | h2
      · rw [h1]
        intro hmem
        rcases List.mem_cons.mp hmem with h3 | h4
        · exact hc h3.symm
        · exact ih (String.mk (splitSlashAux rest).1)
            (List.mem_cons_self _ _) h4
      · exact ih s (List.mem_cons_of_mem _ h2)

theorem flattenSegs_nil : flattenSegs [] = [] := rfl

theorem flattenSegs_single (s : String) : flattenSegs [s] = s.data := rfl

theorem flattenSegs_cons (s : String) (l : List String) (h : l ≠ []) :
    flattenSegs (s :: l) = s.data ++ '/' :: flattenSegs l := by
  cases l with
  | nil => exact absurd rfl h
  | cons t r => rfl

theorem splitSlash_flattenSegs :
    ∀ (l : List String), l ≠ [] → (∀ s ∈ l, '/' ∉ s.data) →
    splitSlash (flattenSegs l) = l := by
  intro l
  induction l with
  | nil => intro h _; exact absurd rfl h
  | cons s rest ih =>
    intro _ hmem
    cases rest with
    | nil =>
      rw [flattenSegs_single, splitSlash_no_slash s.data (hmem s (by simp))]
    | cons t r =>
      rw [flattenSegs_cons s (t :: r) (by simp),
        splitSlash_append s.data _ (hmem s (by simp)),
        ih (by simp) (fun x hx => hmem x (List.mem_cons_of_mem _ hx))]

theorem flattenSegs_concat_empty :
    ∀ (l : List String), l ≠ [] → flattenSegs (l ++ [""]) = flattenSegs l ++ ['/'] := by
  intro l
  induction l with
  | nil => intro h; exact absurd rfl h
  | cons s rest ih =>
    intro _
    cases rest with
    | nil => rfl
    | cons t r =>
      rw [List.cons_append, flattenSegs_cons s ((t :: r) ++ [""]) (by simp),
        flattenSegs_cons s (t :: r) (by simp), ih (by simp)]
      simp

theorem splitSlash_flat_trail (cl : List String) (trail : List Char)
    (hcl : ∀ s ∈ cl, '/' ∉ s.data) (hne : cl ≠ [])
    (htr : trail = [] ∨ trail = ['/']) :
    splitSlash (flattenSegs cl ++ trail) =
      cl ++ (if trail = [] then [] else [""]) := by
  rcases htr with h | h
  · rw [h, List.append_nil, if_pos rfl, List.append_nil,
      splitSlash_flattenSegs cl hne hcl]
  · rw [h, if_neg (by simp)]
    rw [← flattenSegs_concat_empty cl hne]
    refine splitSlash_flattenSegs (cl ++ [""]) (by simp) ?_
    intro s hs
    rcases List.mem_append.mp hs with h1 | h2
    · exact hcl s h1
    · simp at h2
      rw [h2]
      intro hmem
      exact absurd hmem (List.not_mem_nil _)

theorem normSegs_nil (a : Bool) (acc : List String) : normSegs a acc [] = acc := rfl

theorem normSegs_cons (a : Bool) (acc : List String) (s : String) (rest : List String) :
    normSegs a acc (s :: rest) =
      if s = "" ∨ s = "." then normSegs a acc rest
      else if s = ".." then
        match acc.getLast? with
        | none => normSegs a (if a then [".."] else []) rest
        | some t =>
          if t = ".." then normSegs a (acc ++ [".."]) rest
          else normSegs a acc.dropLast rest
      else normSegs a (acc ++ [s]) rest := rfl

theorem segShape_nil (a : Bool) : segShape a [] :=
  ⟨0, [], rfl, by intro s hs; exact absurd hs (List.not_mem_nil _), fun _ => rfl⟩

theorem normSegs_shape :
    ∀ (l : List String) (acc : List String) (a : Bool),
    (∀ s ∈ l, '/' ∉ s.data) → segShape a acc → segShape a (normSegs a acc l) := by
  intro l
  induction l with
  | nil => intro acc a _ hacc; exact hacc
  | cons s rest ih =>
    intro acc a hmem hacc
    have hmems : '/' ∉ s.data := hmem s (by simp)
    have hmemr : ∀ x ∈ rest, '/' ∉ x.data := fun x hx => hmem x (List.mem_cons_of_mem _ hx)
    obtain ⟨k, cl, hshape, hcl, hcond⟩ := hacc
    rw [normSegs_cons]
    by_cases h1 : s = "" ∨ s = "."
    · rw [if_pos h1]
      exact ih acc a hmemr ⟨k, cl, hshape, hcl, hcond⟩
    · rw [if_neg h1]
      by_cases h2 : s = ".."
      · rw [if_pos h2]
        cases hclnil : cl with
        | nil =>
          rw [hclnil] at hshape
          rw [List.append_nil] at hshape
          cases k with
          | zero =>
            rw [hshape]
            simp only [List.replicate, List.getLast?_nil]
            refine ih _ a hmemr ?_
            cases a with
            | false => exact ⟨0, [], by simp, by simp, fun _ => rfl⟩
            | true =>
              exact ⟨1, [], by simp, by simp, by intro hfalse; exact absurd hfalse (by simp)⟩
          | succ k0 =>
            have ha : a = true := by
              cases a with
              | true => rfl
              | false => exact absurd (hcond rfl) (Nat.succ_ne_zero k0)
            have hlast : acc.getLast? = some ".." := by
              rw [hshape, List.replicate_succ', List.getLast?_concat]
            rw [hlast]
            show segShape a (normSegs a (acc ++ [".."]) rest)
            refine ih _ a hmemr ?_
            refine ⟨k0 + 2, [], ?_, by simp, by rw [ha]; intro hfalse; cases hfalse⟩
            rw [hshape, List.append_nil, ← List.replicate_succ']
        | cons c cl' =>
          have hclne : cl ≠ [] := by rw [hclnil]; simp
          have hlast : acc.getLast? = cl.getLast? := by
            rw [hshape]
            exact List.getLast?_append_of_ne_nil _ hclne
          have hlast2 : cl.getLast? = some (cl.getLast hclne) :=
            List.getLast?_eq_getLast cl hclne
          have hgood : goodSeg (cl.getLast hclne) := hcl _ (List.getLast_mem hclne)
          rw [hlast, hlast2]
          show segShape a
            (if cl.getLast hclne = ".." then normSegs a (acc ++ [".."]) rest
             else normSegs a acc.dropLast rest)
          rw [if_neg hgood.2.2.1]
          refine ih _ a hmemr ?_
          refine ⟨k, cl.dropLast, ?_, ?_, hcond⟩
          · rw [hshape, List.dropLast_append_of_ne_nil _ hclne]
          · intro x hx
            exact hcl x (List.dropLast_subset cl hx)
      · rw [if_neg h2]
        refine ih _ a hmemr ?_
        refine ⟨k, cl ++ [s], by rw [hshape, List.append_assoc], ?_, hcond⟩
        intro x hx
        rcases List.mem_append.mp hx with h3 | h4
        · exact hcl x h3
        · simp at h4
          rw [h4]
          exact ⟨fun hx2 => h1 (Or.inl hx2), fun hx2 => h1 (Or.inr hx2), h2, hmems⟩

/-! ### Analysis of the `../`-stripping sanitization -/

theorem stripDD_nil : stripDD [] = [] := rfl

theorem stripDD_fs (z : List Char) : stripDD ('.' :: '.' :: '/' :: z) = stripDD z := rfl

theorem stripDD_bs (z : List Char) : stripDD ('.' :: '.' :: '\\' :: z) = stripDD z := rfl

theorem stripDD_fix (l : List Char)
    (h1 : ∀ r : List Char, l ≠ '.' :: '.' :: '/' :: r)
    (h2 : ∀ r : List Char, l ≠ '.' :: '.' :: '\\' :: r) :
    stripDD l = l := by
  unfold stripDD
  split
  · exact absurd rfl (h1 _)
  · exact absurd rfl (h2 _)
  · rfl

theorem tailFlat_shape (cl : List String) (trail : List Char)
    (htr : trail = [] ∨ trail = ['/']) :
    tailFlat cl trail = [] ∨ ∃ z, tailFlat cl trail = '/' :: z := by
  unfold tailFlat
  by_cases hcl : cl = []
  · rw [if_pos hcl, List.nil_append]
    rcases htr with h | h
    · exact Or.inl h
    · exact Or.inr ⟨[], h⟩
  · rw [if_neg hcl]
    exact Or.inr ⟨flattenSegs cl ++ trail, rfl⟩

theorem flat_cons_eq (c1 : String) (cl' : List String) (trail : List Char) :
    flattenSegs (c1 :: cl') ++ trail = c1.data ++ tailFlat cl' trail := by
  unfold tailFlat
  cases cl' with
  | nil => rw [if_pos rfl, flattenSegs_single, List.nil_append]
  | cons t r =>
    rw [if_neg (by simp), flattenSegs_cons c1 (t :: r) (by simp)]
    simp

theorem no_dd_head (c0 : List Char) (cl : List String) (trail : List Char)
    (hsl : '/' ∉ c0) (htr : trail = [] ∨ trail = ['/'])
    (hbs : ∀ r : List Char, c0 ≠ '.' :: '.' :: '\\' :: r)
    (hdot2 : c0 ≠ ['.', '.']) :
    stripDD (c0 ++ tailFlat cl trail) = c0 ++ tailFlat cl trail := by
  have hshape := tailFlat_shape cl trail htr
  refine stripDD_fix _ ?_ ?_
  · intro r heq
    match c0, heq with
    | [], heq =>
      rw [List.nil_append] at heq
      rcases hshape with h | ⟨z, h⟩
      · rw [h] at heq; exact absurd heq (by simp)
      · rw [h] at heq
        have : '/' = '.' := by injection heq
        exact absurd this (by decide)
    | [a], heq =>
      rw [List.cons_append, List.nil_append] at heq
      injection heq with ha heq2
      rcases hshape with h | ⟨z, h⟩
      · rw [h] at heq2; exact absurd heq2 (by simp)
      · rw [h] at heq2
        have : '/' = '.' := by injection heq2
        exact absurd this (by decide)
    | a :: b :: c0'', heq =>
      rw [List.cons_append, List.cons_append] at heq
      injection heq with ha heq2
      injection heq2 with hb heq3
      match c0'', heq3 with
      | [], heq3 =>
        exact hdot2 (by rw [ha, hb])
      | c :: r0, heq3 =>
        rw [List.cons_append] at heq3
        have hc : c = '/' := by injection heq3
        exact hsl (by rw [← hc]; simp)
  · intro r heq
    match c0, heq with
    | [], heq =>
      rw [List.nil_append] at heq
      rcases hshape with h | ⟨z, h⟩
      · rw [h] at heq; exact absurd heq (by simp)
      · rw [h] at heq
        have : '/' = '.' := by injection heq
        exact absurd this (by decide)
    | [a], heq =>
      rw [List.cons_append, List.nil_append] at heq
      injection heq with ha heq2
      rcases hshape with h | ⟨z, h⟩
      · rw [h] at heq2; exact absurd heq2 (by simp)
      · rw [h] at heq2
        have : '/' = '.' := by injection heq2
        exact absurd this (by decide)
    | a :: b :: c0'', heq =>
      rw [List.cons_append, List.cons_append] at heq
      injection heq with ha heq2
      injection heq2 with hb heq3
      match c0'', heq3 with
      | [], heq3 =>
        rcases hshape with h | ⟨z, h⟩
        · rw [h] at heq3; exact absurd heq3 (by simp)
        · rw [h] at heq3
          have : '/' = '\\' := by injection heq3
          exact absurd this (by decide)
      | c :: r0, heq3 =>
        rw [List.cons_append] at heq3
        have hc : c = '\\' := by injection heq3
        exact hbs r0 (by rw [ha, hb, hc])

theorem mk_ne_dotdot (c0 : List Char) (h : c0 ≠ ['.', '.']) :
    String.mk c0 ≠ ".." := by
  intro heq
  exact h (show c0 = "..".data from congrArg String.data heq)

theorem stripClean (n : Nat) :
    ∀ (c0 : List Char) (cl : List String) (trail : List Char),
    (c0 ++ tailFlat cl trail).length ≤ n →
    '/' ∉ c0 → (∀ s ∈ cl, goodSeg s) → (trail = [] ∨ trail = ['/']) →
    stripDD (c0 ++ tailFlat cl trail) = "..".data ∨
      noDotDotSegs (stripDD (c0 ++ tailFlat cl trail)) := by
  induction n with
  | zero =>
    intro c0 cl trail hlen _ _ _
    have hnil : c0 ++ tailFlat cl trail = [] :=
      List.eq_nil_of_length_eq_zero (Nat.le_zero.mp hlen)
    rw [hnil, stripDD_nil]
    right
    intro s hs
    rw [splitSlash_no_slash [] (by simp)] at hs
    simp at hs
    rw [hs]
    decide
  | succ n ih =>
    intro c0 cl trail hlen hsl hcl htr
    by_cases hbs : ∃ r : List Char, c0 = '.' :: '.' :: '\\' :: r
    · obtain ⟨r, hr⟩ := hbs
      subst hr
      rw [show ('.' :: '.' :: '\\' :: r) ++ tailFlat cl trail
          = '.' :: '.' :: '\\' :: (r ++ tailFlat cl trail) by simp]
      rw [stripDD_bs]
      refine ih r cl trail ?_ (fun hm => hsl (by simp [hm])) hcl htr
      simp at hlen ⊢
      omega
    · by_cases hdot2 : c0 = ['.', '.']
      · subst hdot2
        by_cases hclq : cl = []
        · subst hclq
          rcases htr with h | h <;> subst h
          · left
            rfl
          · right
            decide
        · obtain ⟨c1, cl', hc1⟩ : ∃ c1 cl', cl = c1 :: cl' := by
            cases cl with
            | nil => exact absurd rfl hclq
            | cons a b => exact ⟨a, b, rfl⟩
          subst hc1
          rw [show (['.', '.'] : List Char) ++ tailFlat (c1 :: cl') trail
              = '.' :: '.' :: '/' :: (flattenSegs (c1 :: cl') ++ trail) by
            unfold tailFlat; rw [if_neg (by simp)]; simp]
          rw [stripDD_fs, flat_cons_eq]
          refine ih c1.data cl' trail ?_ (hcl c1 (by simp)).2.2.2
            (fun x hx => hcl x (List.mem_cons_of_mem _ hx)) htr
          have : (['.', '.'] ++ tailFlat (c1 :: cl') trail).length
              = 3 + (c1.data ++ tailFlat cl' trail).length := by
            rw [show (['.', '.'] : List Char) ++ tailFlat (c1 :: cl') trail
                = '.' :: '.' :: '/' :: (flattenSegs (c1 :: cl') ++ trail) by
              unfold tailFlat; rw [if_neg (by simp)]; simp]
            rw [flat_cons_eq]
            simp
            omega
          omega
      · have hbs2 : ∀ r : List Char, c0 ≠ '.' :: '.' :: '\\' :: r :=
          fun r hr => hbs ⟨r, hr⟩
        rw [no_dd_head c0 cl trail hsl htr hbs2 hdot2]
        right
        intro s hs
        by_cases hclq : cl = []
        · subst hclq
          rcases htr with h | h <;> subst h
          · rw [show tailFlat [] [] = [] from rfl, List.append_nil] at hs
            rw [splitSlash_no_slash c0 hsl] at hs
            simp at hs
            rw [hs]
            exact mk_ne_dotdot c0 hdot2
          · rw [show tailFlat [] ['/'] = '/' :: [] from rfl] at hs
            rw [show c0 ++ '/' :: [] = c0 ++ '/' :: ([] : List Char) from rfl,
              splitSlash_append c0 [] hsl] at hs
            rcases List.mem_cons.mp hs with h1 | h2
            · rw [h1]; exact mk_ne_dotdot c0 hdot2
            · rw [splitSlash_no_slash [] (by simp)] at h2
              simp at h2
              rw [h2]
              decide
        · rw [show tailFlat cl trail = '/' :: (flattenSegs cl ++ trail) by
            unfold tailFlat; rw [if_neg hclq]; simp] at hs
          rw [splitSlash_append c0 _ hsl] at hs
          rcases List.mem_cons.mp hs with h1 | h2
          · rw [h1]; exact mk_ne_dotdot c0 hdot2
          · rw [splitSlash_flat_trail cl trail
              (fun x hx => (hcl x hx).2.2.2) hclq htr] at h2
            rcases List.mem_append.mp h2 with h3 | h4
            · exact (hcl s h3).2.2.1
            · by_cases htz : trail = []
              · rw [if_pos htz] at h4
                exact absurd h4 (List.not_mem_nil _)
              · rw [if_neg htz] at h4
                simp at h4
                rw [h4]
                decide

theorem stripRun :
    ∀ (k : Nat) (cl : List String) (trail : List Char),
    (∀ s ∈ cl, goodSeg s) → (trail = [] ∨ trail = ['/']) →
    stripDD (flattenSegs (List.replicate k ".." ++ cl) ++ trail) = "..".data ∨
      noDotDotSegs (stripDD (flattenSegs (List.replicate k ".." ++ cl) ++ trail)) := by
  intro k
  induction k with
  | zero =>
    intro cl trail hcl htr
    rw [List.replicate_zero, List.nil_append]
    cases cl with
    | nil =>
      rw [flattenSegs_nil, List.nil_append]
      rcases htr with h | h <;> subst h
      · rw [stripDD_nil]
        right
        intro s hs
        rw [splitSlash_no_slash [] (by simp)] at hs
        simp at hs
        rw [hs]
        decide
      · right
        decide
    | cons c1 cl' =>
      rw [flat_cons_eq]
      exact stripClean (c1.data ++ tailFlat cl' trail).length c1.data cl' trail
        (Nat.le_refl _) (hcl c1 (by simp)).2.2.2
        (fun x hx => hcl x (List.mem_cons_of_mem _ hx)) htr
  | succ k ih =>
    intro cl trail hcl htr
    by_cases hrest : List.replicate k ".." ++ cl = []
    · have hk : k = 0 := by
        rcases List.append_eq_nil.mp hrest with ⟨h1, _⟩
        exact List.eq_nil_iff_forall_not_mem.mp h1 |> fun _ => by
          cases k with
          | zero => rfl
          | succ k0 => rw [List.replicate_succ] at h1; exact absurd h1 (by simp)
      have hcl0 : cl = [] := (List.append_eq_nil.mp hrest).2
      subst hcl0
      rw [hk] at *
      rw [List.replicate_one]
      rcases htr with h | h <;> subst h
      · left
        decide
      · right
        decide
    · rw [show List.replicate (k + 1) ".." ++ cl = ".." :: (List.replicate k ".." ++ cl) by
        rw [List.replicate_succ, List.cons_append]]
      rw [flattenSegs_cons _ _ hrest]
      rw [show ("..").data ++ '/' :: flattenSegs (List.replicate k ".." ++ cl) ++ trail
          = '.' :: '.' :: '/' :: (flattenSegs (List.replicate k ".." ++ cl) ++ trail) by
        simp]
      rw [stripDD_fs]
      exact ih cl trail hcl htr

theorem normalizeAssemble_cons (isAbs trailing : Bool) (s : String) (rest : List String) :
    normalizeAssemble isAbs trailing (s :: rest) =
      (if isAbs then
        '/' :: (if trailing then flattenSegs (s :: rest) ++ ['/'] else flattenSegs (s :: rest))
       else
        (if trailing then flattenSegs (s :: rest) ++ ['/'] else flattenSegs (s :: rest))) := rfl

theorem stripAssemble (isAbs trailing : Bool) (segs : List String)
    (hs : segShape (!isAbs) segs) :
    stripDD (normalizeAssemble isAbs trailing segs) = "..".data ∨
      noDotDotSegs (stripDD (normalizeAssemble isAbs trailing segs)) := by
  cases segs with
  | nil =>
    cases isAbs <;> cases trailing <;> right <;> decide
  | cons s0 rest =>
    obtain ⟨k, cl, hshape, hcl, hcond⟩ := hs
    rw [normalizeAssemble_cons]
    have hbody : (if trailing then flattenSegs (s0 :: rest) ++ ['/']
        else flattenSegs (s0 :: rest))
        = flattenSegs (s0 :: rest) ++ (if trailing then ['/'] else []) := by
      cases trailing with
      | true => rw [if_pos rfl, if_pos rfl]
      | false => rw [if_neg (by simp), if_neg (by simp), List.append_nil]
    have htr2 : (if trailing then ['/'] else ([] : List Char)) = []
        ∨ (if trailing then ['/'] else ([] : List Char)) = ['/'] := by
      cases trailing with
      | true => exact Or.inr rfl
      | false => exact Or.inl rfl
    cases isAbs with
    | true =>
      rw [if_pos rfl, hbody]
      have hk0 : k = 0 := hcond rfl
      rw [hk0, List.replicate_zero, List.nil_append] at hshape
      have hclne : cl ≠ [] := by rw [← hshape]; simp
      right
      rw [stripDD_fix _ ?_ ?_]
      · intro s hs2
        rw [splitSlash_slash] at hs2
        rcases List.mem_cons.mp hs2 with h1 | h2
        · rw [h1]; decide
        · rw [← hshape] at hcl
          rw [splitSlash_flat_trail (s0 :: rest) _
              (fun x hx => (hcl x hx).2.2.2) (by simp) htr2] at h2
          rcases List.mem_append.mp h2 with h3 | h4
          · exact (hcl s h3).2.2.1
          · by_cases htz : (if trailing then ['/'] else ([] : List Char)) = []
            · rw [if_pos htz] at h4
              exact absurd h4 (List.not_mem_nil _)
            · rw [if_neg htz] at h4
              simp at h4
              rw [h4]
              decide
      · intro r heq
        exact absurd (show '/' = '.' by injection heq) (by decide)
      · intro r heq
        exact absurd (show '/' = '.' by injection heq) (by decide)
    | false =>
      rw [if_neg (by simp), hbody, hshape]
      exact stripRun k cl _ hcl htr2

/-- The sanitized path `path.normalize(p).replace(/^([.][.][\/\\])+/, '')`
is either exactly the single residual segment `..`, or contains no `..`
segment at all. -/
theorem strip_normalize_shape (dp : List Char) :
    stripDD (normalizeCL dp) = "..".data ∨ noDotDotSegs (stripDD (normalizeCL dp)) := by
  cases dp with
  | nil =>
    right
    decide
  | cons c l =>
    rw [show normalizeCL (c :: l)
        = normalizeAssemble ((c :: l).head? == some '/')
            ((c :: l).getLast? == some '/')
            (normSegs (!((c :: l).head? == some '/')) [] (splitSlash (c :: l))) from rfl]
    exact stripAssemble _ _ _
      (normSegs_shape (splitSlash (c :: l)) [] _
        (fun s hs => mem_splitSlash_no_slash (c :: l) s hs) (segShape_nil _))

/-- The relative path computed by `resolveFilePath` contains no `..`
segment unless it is the bare residual `..`. -/
theorem relativePath_no_dotdot (rp : List Char) (rel : List Char)
    (h : relativePathOf rp = some rel) (hne : rel ≠ "..".data) :
    ∀ s ∈ splitSlash rel, s ≠ ".." := by
  unfold relativePathOf at h
  rcases Option.map_eq_some'.mp h with ⟨dp, _, hrel⟩
  by_cases hroot : stripDD (normalizeCL dp) = ['/']
  · rw [if_pos hroot] at hrel
    rw [← hrel]
    decide
  · rw [if_neg hroot] at hrel
    rcases strip_normalize_shape dp with hdd | hnd
    · rw [hrel] at hdd
      exact absurd hdd hne
    · rw [← hrel]
      exact hnd

/-! ### Equations for the resolver and the handler -/

theorem probeCandidates_cons (fs : Fs) (c : List String) (rest : List (List String)) :
    probeCandidates fs (c :: rest) =
      match fs c with
      | StatR.error => Except.error ResolveErr.fsError
      | StatR.noent => probeCandidates fs rest
      | StatR.file => Except.ok (some c)
      | StatR.dir =>
        if fsExists fs (joinSegs c ["index.html"]) then
          Except.ok (some (joinSegs c ["index.html"]))
        else probeCandidates fs rest
      | StatR.other => probeCandidates fs rest := rfl

theorem resolveFilePath_eq (fs : Fs) (rootDir : List String) (rp : String) (rel : List Char)
    (hrel : relativePathOf rp.data = some rel) :
    resolveFilePath fs rootDir rp = probeCandidates fs (candidatesOf rootDir rel) := by
  unfold resolveFilePath
  rw [hrel]

theorem resolveFilePath_err (fs : Fs) (rootDir : List String) (rp : String)
    (hrel : relativePathOf rp.data = none) :
    resolveFilePath fs rootDir rp = Except.error ResolveErr.uriError := by
  unfold resolveFilePath
  rw [hrel]

theorem respondFor_error (e : ResolveErr) (se : Bool) :
    respondFor (Except.error e) se =
      ServedResult.response 500 "text/plain; charset=utf-8"
        (ResponseBody.text "Internal Server Error") := rfl

theorem respondFor_notfound (se : Bool) :
    respondFor (Except.ok none) se =
      ServedResult.response 404 "text/plain; charset=utf-8"
        (ResponseBody.text "Not Found") := rfl

theorem respondFor_file (fp : List String) :
    respondFor (Except.ok (some fp)) false =
      ServedResult.response 200 (contentTypeFor fp) (ResponseBody.fileStream fp) := rfl

theorem respondFor_streamError (fp : List String) :
    respondFor (Except.ok (some fp)) true =
      ServedResult.response 500 "text/plain; charset=utf-8"
        (ResponseBody.text "Internal Server Error") := rfl

theorem handleRequest_some (fs : Fs) (rootDir : List String) (u : String) (se : Bool)
    (h : u ≠ "") :
    handleRequest fs rootDir (some u) se = respondFor (resolveFilePath fs rootDir u) se := by
  show (if u = "" then ServedResult.response 400 "text/plain; charset=utf-8"
      (ResponseBody.text "Bad Request")
    else respondFor (resolveFilePath fs rootDir u) se)
    = respondFor (resolveFilePath fs rootDir u) se
  rw [if_neg h]

/-! ### Claim C1 -/

/-- C1 counterexample: the request path `../..` contains leading
parent-directory traversal segments, yet the resolver returns
`/srv/index.html`, which lies outside both base directories
(`/srv/app/public` and `/srv/app`).  The sanitization strips the leading
`../` but leaves the bare residual segment `..`, and joining `..` to the
root base escapes to its parent. -/
theorem claim1_counterexample :
    resolveFilePath fsEscape exRoot "../.." = Except.ok (some ["srv", "index.html"]) ∧
    ¬ underDir (PUBLIC_DIR exRoot) ["srv", "index.html"] ∧
    ¬ underDir exRoot ["srv", "index.html"] :=
  ⟨rfl, by decide, by decide⟩

/-- C1 (amended): after stripping the query string, percent-decoding,
normalizing and repeatedly stripping leading `../`/`..\` segments, the
resulting relative path never retains a leading `../`/`..\`; in every
case except the bare residual path `..` (reachable, e.g., from `../..`
or `..\..`), the relative path contains no `..` segment at all, so each
candidate stays under its base directory and the resolver can only
return paths under one of the two bases.  (For the residual `..`, the
root-directory candidate resolves to the parent of the root base and can
escape both bases, as the counterexample shows.) -/
theorem claim1_theorem (fs : Fs) (rootDir : List String) (rp : String) (rel : List Char)
    (hrel : relativePathOf rp.data = some rel) (hne : rel ≠ "..".data) :
    underDir (PUBLIC_DIR rootDir) (joinSegs (PUBLIC_DIR rootDir) (splitSlash rel)) ∧
    underDir rootDir (joinSegs rootDir (splitSlash rel)) ∧
    ∀ p, resolveFilePath fs rootDir rp = Except.ok (some p) →
      underDir (PUBLIC_DIR rootDir) p ∨ underDir rootDir p := by
  have hnd : ∀ s ∈ splitSlash rel, s ≠ ".." := relativePath_no_dotdot rp.data rel hrel hne
  obtain ⟨t1, ht1⟩ := joinSegs_no_dotdot (splitSlash rel) (PUBLIC_DIR rootDir) hnd
  obtain ⟨t2, ht2⟩ := joinSegs_no_dotdot (splitSlash rel) rootDir hnd
  refine ⟨by rw [ht1]; exact underDir_append _ _,
    by rw [ht2]; exact underDir_append _ _, ?_⟩
  intro p hp
  rw [resolveFilePath_eq fs rootDir rp rel hrel] at hp
  obtain ⟨c, hc, hpc⟩ := probeCandidates_ok_shape fs _ p hp
  unfold candidatesOf at hc
  rcases List.mem_cons.mp hc with h1 | h2
  · left
    rcases hpc with he | he
    · rw [he, h1, ht1]
      exact underDir_append _ _
    · rw [he, h1, ht1, List.append_assoc]
      exact underDir_append _ _
  · simp at h2
    right
    rcases hpc with he | he
    · rw [he, h2, ht2]
      exact underDir_append _ _
    · rw [he, h2, ht2, List.append_assoc]
      exact underDir_append _ _

/-- C1 witness: the request `../../etc/passwd` sanitizes to
`etc/passwd`; both candidates stay under their bases and any resolver
result is under one of the two bases. -/
theorem claim1_witness :
    relativePathOf "../../etc/passwd".data = some "etc/passwd".data ∧
    "etc/passwd".data ≠ "..".data ∧
    (underDir (PUBLIC_DIR exRoot)
        (joinSegs (PUBLIC_DIR exRoot) (splitSlash "etc/passwd".data)) ∧
      underDir exRoot (joinSegs exRoot (splitSlash "etc/passwd".data)) ∧
      ∀ p, resolveFilePath fsEmpty exRoot "../../etc/passwd" = Except.ok (some p) →
        underDir (PUBLIC_DIR exRoot) p ∨ underDir exRoot p) :=
  ⟨by decide, by decide,
    claim1_theorem fsEmpty exRoot "../../etc/passwd" "etc/passwd".data
      (by decide) (by decide)⟩

/-! ### Claim C2 -/

/-- C2: the resolver probes exactly the two candidates
`<publicDir>/<rel>` then `<rootDir>/<rel>`, in that order.  A regular
file candidate is returned immediately (so the root candidate is never
consulted when the public candidate is a file); a missing candidate, or
a directory candidate without `index.html`, falls through to the next
candidate; a directory candidate with `index.html` returns that index
path; when neither candidate yields a file the resolver signals
not-found and the handler responds 404 with body `Not Found`. -/
theorem claim2_theorem (fs : Fs) (rootDir : List String) (rp : String) (rel : List Char)
    (c1 c2 : List String)
    (hrel : relativePathOf rp.data = some rel)
    (hc1 : c1 = joinSegs (PUBLIC_DIR rootDir) (splitSlash rel))
    (hc2 : c2 = joinSegs rootDir (splitSlash rel)) :
    (resolveFilePath fs rootDir rp = probeCandidates fs [c1, c2]) ∧
    (fs c1 = StatR.file →
      resolveFilePath fs rootDir rp = Except.ok (some c1)) ∧
    (fs c1 = StatR.dir → fsExists fs (c1 ++ ["index.html"]) = true →
      resolveFilePath fs rootDir rp = Except.ok (some (c1 ++ ["index.html"]))) ∧
    (fs c1 = StatR.noent →
      resolveFilePath fs rootDir rp = probeCandidates fs [c2]) ∧
    (fs c1 = StatR.dir → fsExists fs (c1 ++ ["index.html"]) = false →
      resolveFilePath fs rootDir rp = probeCandidates fs [c2]) ∧
    (fs c2 = StatR.file → probeCandidates fs [c2] = Except.ok (some c2)) ∧
    (fs c2 = StatR.dir → fsExists fs (c2 ++ ["index.html"]) = true →
      probeCandidates fs [c2] = Except.ok (some (c2 ++ ["index.html"]))) ∧
    (fs c2 = StatR.dir → fsExists fs (c2 ++ ["index.html"]) = false →
      probeCandidates fs [c2] = Except.ok none) ∧
    (fs c2 = StatR.noent → probeCandidates fs [c2] = Except.ok none) ∧
    (∀ se : Bool, rp ≠ "" → resolveFilePath fs rootDir rp = Except.ok none →
      handleRequest fs rootDir (some rp) se
        = ServedResult.response 404 "text/plain; charset=utf-8"
            (ResponseBody.text "Not Found")) := by
  have hres : resolveFilePath fs rootDir rp = probeCandidates fs [c1, c2] := by
    rw [resolveFilePath_eq fs rootDir rp rel hrel]
    unfold candidatesOf
    rw [hc1, hc2]
  refine ⟨hres, ?_, ?_, ?_, ?_, ?_, ?_, ?_, ?_, ?_⟩
  · intro h1
    rw [hres, probeCandidates_cons, h1]
  · intro h1 h2
    rw [hres, probeCandidates_cons, h1]
    show (if fsExists fs (joinSegs c1 ["index.html"]) then
        Except.ok (some (joinSegs c1 ["index.html"]))
      else probeCandidates fs [c2]) = Except.ok (some (c1 ++ ["index.html"]))
    rw [joinSegs_index, if_pos h2]
  · intro h1
    rw [hres, probeCandidates_cons, h1]
  · intro h1 h2
    rw [hres, probeCandidates_cons, h1]
    show (if fsExists fs (joinSegs c1 ["index.html"]) then
        Except.ok (some (joinSegs c1 ["index.html"]))
      else probeCandidates fs [c2]) = probeCandidates fs [c2]
    rw [joinSegs_index, if_neg (by rw [h2]; exact Bool.false_ne_true)]
  · intro h1
    rw [probeCandidates_cons, h1]
  · intro h1 h2
    rw [probeCandidates_cons, h1]
    show (if fsExists fs (joinSegs c2 ["index.html"]) then
        Except.ok (some (joinSegs c2 ["index.html"]))
      else probeCandidates fs []) = Except.ok (some (c2 ++ ["index.html"]))
    rw [joinSegs_index, if_pos h2]
  · intro h1 h2
    rw [probeCandidates_cons, h1]
    show (if fsExists fs (joinSegs c2 ["index.html"]) then
        Except.ok (some (joinSegs c2 ["index.html"]))
      else probeCandidates fs []) = Except.ok none
    rw [joinSegs_index, if_neg (by rw [h2]; exact Bool.false_ne_true)]
    rfl
  · intro h1
    rw [probeCandidates_cons, h1]
    rfl
  · intro se hne h404
    rw [handleRequest_some fs rootDir rp se hne, h404, respondFor_notfound]

/-- C2 witness: on the small site, `/missing.png` misses both candidates
and yields 404 `Not Found`; probing behaves per candidate as stated. -/
theorem claim2_witness :
    relativePathOf "/missing.png".data = some "/missing.png".data ∧
    (["srv", "app", "public", "missing.png"]
      = joinSegs (PUBLIC_DIR exRoot) (splitSlash "/missing.png".data)) ∧
    (["srv", "app", "missing.png"] = joinSegs exRoot (splitSlash "/missing.png".data)) ∧
    ((resolveFilePath fsSite exRoot "/missing.png"
        = probeCandidates fsSite
            [["srv", "app", "public", "missing.png"], ["srv", "app", "missing.png"]]) ∧
     (fsSite ["srv", "app", "public", "missing.png"] = StatR.file →
       resolveFilePath fsSite exRoot "/missing.png"
         = Except.ok (some ["srv", "app", "public", "missing.png"])) ∧
     (fsSite ["srv", "app", "public", "missing.png"] = StatR.dir →
       fsExists fsSite (["srv", "app", "public", "missing.png"] ++ ["index.html"]) = true →
       resolveFilePath fsSite exRoot "/missing.png"
         = Except.ok (some (["srv", "app", "public", "missing.png"] ++ ["index.html"]))) ∧
     (fsSite ["srv", "app", "public", "missing.png"] = StatR.noent →
       resolveFilePath fsSite exRoot "/missing.png"
         = probeCandidates fsSite [["srv", "app", "missing.png"]]) ∧
     (fsSite ["srv", "app", "public", "missing.png"] = StatR.dir →
       fsExists fsSite (["srv", "app", "public", "missing.png"] ++ ["index.html"]) = false →
       resolveFilePath fsSite exRoot "/missing.png"
         = probeCandidates fsSite [["srv", "app", "missing.png"]]) ∧
     (fsSite ["srv", "app", "missing.png"] = StatR.file →
       probeCandidates fsSite [["srv", "app", "missing.png"]]
         = Except.ok (some ["srv", "app", "missing.png"])) ∧
     (fsSite ["srv", "app", "missing.png"] = StatR.dir →
       fsExists fsSite (["srv", "app", "missing.png"] ++ ["index.html"]) = true →
       probeCandidates fsSite [["srv", "app", "missing.png"]]
         = Except.ok (some (["srv", "app", "missing.png"] ++ ["index.html"]))) ∧
     (fsSite ["srv", "app", "missing.png"] = StatR.dir →
       fsExists fsSite (["srv", "app", "missing.png"] ++ ["index.html"]) = false →
       probeCandidates fsSite [["srv", "app", "missing.png"]] = Except.ok none) ∧
     (fsSite ["srv", "app", "missing.png"] = StatR.noent →
       probeCandidates fsSite [["srv", "app", "missing.png"]] = Except.ok none) ∧
     (∀ se : Bool, ("/missing.png" : String) ≠ "" →
       resolveFilePath fsSite exRoot "/missing.png" = Except.ok none →
       handleRequest fsSite exRoot (some "/missing.png") se
         = ServedResult.response 404 "text/plain; charset=utf-8"
             (ResponseBody.text "Not Found"))) :=
  ⟨by decide, by decide, by decide,
    claim2_theorem fsSite exRoot "/missing.png" "/missing.png".data
      ["srv", "app", "public", "missing.png"] ["srv", "app", "missing.png"]
      (by decide) (by decide) (by decide)⟩

/-! ### Claim C3 -/

/-- C3 counterexample: with `public/foo` a directory whose `index.html`
entry is itself a directory, the resolver returns
`public/foo/index.html`, which is not a regular file — the
directory-index fallback only checks `existsSync`. -/
theorem claim3_counterexample :
    resolveFilePath fsDirIndex exRoot "/foo"
      = Except.ok (some ["srv", "app", "public", "foo", "index.html"]) ∧
    fsDirIndex ["srv", "app", "public", "foo", "index.html"] = StatR.dir :=
  ⟨rfl, rfl⟩

/-- C3 (amended): for every raw request path, the resolver returns
either a not-found signal (or a thrown error) or an absolute path that
exists on the filesystem; a path returned directly as a candidate is a
regular file, but the `<candidate>/index.html` returned by the
directory-index fallback is only checked with `existsSync`, so it may be
a directory or other non-file entry. -/
theorem claim3_theorem (fs : Fs) (rootDir : List String) (rp : String) (p : List String)
    (h : resolveFilePath fs rootDir rp = Except.ok (some p)) :
    fsExists fs p = true := by
  cases hrel : relativePathOf rp.data with
  | none =>
    rw [resolveFilePath_err fs rootDir rp hrel] at h
    exact absurd h (by simp)
  | some rel =>
    rw [resolveFilePath_eq fs rootDir rp rel hrel] at h
    exact probeCandidates_ok_exists fs _ p h

/-- C3 witness: resolving `/` on the small site returns
`public/index.html`, which exists. -/
theorem claim3_witness :
    resolveFilePath fsSite exRoot "/"
      = Except.ok (some ["srv", "app", "public", "index.html"]) ∧
    fsExists fsSite ["srv", "app", "public", "index.html"] = true :=
  ⟨rfl, claim3_theorem fsSite exRoot "/" ["srv", "app", "public", "index.html"] rfl⟩

/-! ### Claim C4 -/

/-- C4 counterexample: the request path `/%zz` has a malformed escape
sequence; `decodeURIComponent` throws inside `resolveFilePath`, the
handler's catch-all responds 500 `Internal Server Error` — not 400 as
the claim states. -/
theorem claim4_counterexample :
    handleRequest fsEmpty exRoot (some "/%zz") false
      = ServedResult.response 500 "text/plain; charset=utf-8"
          (ResponseBody.text "Internal Server Error") ∧
    ServedResult.response 500 "text/plain; charset=utf-8"
        (ResponseBody.text "Internal Server Error")
      ≠ ServedResult.response 400 "text/plain; charset=utf-8"
          (ResponseBody.text "Bad Request") :=
  ⟨rfl, by decide⟩

/-- C4 (amended): for every request whose path (after query-string
stripping) fails percent-decoding due to a malformed escape sequence,
the `URIError` thrown by `decodeURIComponent` is caught by the handler's
catch-all around `resolveFilePath`, and the server responds 500 with
body `Internal Server Error` — the same as a filesystem error, not the
400 client-error response. -/
theorem claim4_theorem (fs : Fs) (rootDir : List String) (rp : String) (se : Bool)
    (hne : rp ≠ "") (hdec : percentDecodeCL (stripQueryCL rp.data) = none) :
    handleRequest fs rootDir (some rp) se
      = ServedResult.response 500 "text/plain; charset=utf-8"
          (ResponseBody.text "Internal Server Error") := by
  have hrel : relativePathOf rp.data = none := by
    unfold relativePathOf
    rw [hdec]
    rfl
  rw [handleRequest_some fs rootDir rp se hne,
    resolveFilePath_err fs rootDir rp hrel, respondFor_error]

/-- C4 witness: `/%zz` fails decoding and yields 500. -/
theorem claim4_witness :
    (("/%zz" : String) ≠ "") ∧
    percentDecodeCL (stripQueryCL "/%zz".data) = none ∧
    handleRequest fsEmpty exRoot (some "/%zz") false
      = ServedResult.response 500 "text/plain; charset=utf-8"
          (ResponseBody.text "Internal Server Error") :=
  ⟨by decide, by decide, claim4_theorem fsEmpty exRoot "/%zz" false (by decide) (by decide)⟩

/-! ### Claim C5 -/

/-- C5: for every resolved file whose read stream reports an error
before the response headers/body have been flushed (the stream failing
on open, before any data chunk reaches the pipe), the handler responds
500 with plain-text body `Internal Server Error` — one well-formed
error response.  The `.pipe(res.writeHead(200, ...))` argument only
buffers the 200 header; with no `res.setHeader` ever called, the error
listener's `res.writeHead(500, ...)` takes Node's fast path and
replaces the unflushed 200 header, and `res.end` flushes the single 500
response. -/
theorem claim5_theorem (fs : Fs) (rootDir : List String) (rp : String) (fp : List String)
    (hne : rp ≠ "") (hres : resolveFilePath fs rootDir rp = Except.ok (some fp)) :
    handleRequest fs rootDir (some rp) true
      = ServedResult.response 500 "text/plain; charset=utf-8"
          (ResponseBody.text "Internal Server Error") := by
  rw [handleRequest_some fs rootDir rp true hne, hres, respondFor_streamError]

/-- C5 witness: `/app.js` resolves to `public/app.js`; with the read
stream erroring before any data, the response is a single 500
`Internal Server Error`. -/
theorem claim5_witness :
    (("/app.js" : String) ≠ "") ∧
    resolveFilePath fsSite exRoot "/app.js"
      = Except.ok (some ["srv", "app", "public", "app.js"]) ∧
    handleRequest fsSite exRoot (some "/app.js") true
      = ServedResult.response 500 "text/plain; charset=utf-8"
          (ResponseBody.text "Internal Server Error") :=
  ⟨by decide, rfl,
    claim5_theorem fsSite exRoot "/app.js" ["srv", "app", "public", "app.js"]
      (by decide) rfl⟩

/-! ### Claim C6 -/

/-- C6: for every filesystem state in which the public directory
contains `index.html`, the response for `/` equals the response for
`/index.html` (same status, content type and body): a normalized path of
exactly `/` is rewritten to `/index.html` before candidates are built,
so the two requests resolve identically. -/
theorem claim6_theorem (fs : Fs) (rootDir : List String) (se : Bool)
    (hidx : fs (PUBLIC_DIR rootDir ++ ["index.html"]) = StatR.file) :
    handleRequest fs rootDir (some "/") se
      = handleRequest fs rootDir (some "/index.html") se := by
  rw [handleRequest_some fs rootDir "/" se (by decide),
    handleRequest_some fs rootDir "/index.html" se (by decide)]
  have hsame : resolveFilePath fs rootDir "/" = resolveFilePath fs rootDir "/index.html" := by
    rw [resolveFilePath_eq fs rootDir "/" "/index.html".data (by decide),
      resolveFilePath_eq fs rootDir "/index.html" "/index.html".data (by decide)]
  rw [hsame]

/-- C6 witness: on the small site (where `public/index.html` is a
regular file) the two requests produce the same response. -/
theorem claim6_witness :
    fsSite (PUBLIC_DIR exRoot ++ ["index.html"]) = StatR.file ∧
    handleRequest fsSite exRoot (some "/") false
      = handleRequest fsSite exRoot (some "/index.html") false :=
  ⟨by decide, claim6_theorem fsSite exRoot false (by decide)⟩

/-! ### Claim C7 -/

/-- The MIME lookup of a key not present in the table falls back to
`application/octet-stream`. -/
theorem mimeLookup_default (e : String) (h : e ∉ MIME_TYPES.map Prod.fst) :
    mimeLookup e = "application/octet-stream" := by
  have hnone : ∀ (l : List (String × String)), (∀ kv ∈ l, kv.1 ≠ e) → l.lookup e = none := by
    intro l
    induction l with
    | nil => intro _; rfl
    | cons kv rest ih =>
      intro hm
      obtain ⟨k, b⟩ := kv
      have hne : (e == k) = false :=
        beq_eq_false_iff_ne.mpr (Ne.symm (hm (k, b) (List.mem_cons_self _ _)))
      rw [List.lookup_cons, hne]
      exact ih (fun x hx => hm x (List.mem_cons_of_mem _ hx))
  unfold mimeLookup
  rw [hnone MIME_TYPES (fun kv hkv heq => h (heq ▸ List.mem_map_of_mem Prod.fst hkv))]
  rfl

/-- C7: a resolved file is served (absent stream errors) with status 200
and the content type obtained from the fixed MIME table keyed by the
lowercased extension of the resolved file; the table maps exactly the
eleven listed extensions, matching case-insensitively (the key is
lowercased first), and every extension not in the table falls back to
`application/octet-stream`. -/
theorem claim7_theorem (fs : Fs) (rootDir : List String) (rp : String) (fp : List String)
    (hne : rp ≠ "") (hres : resolveFilePath fs rootDir rp = Except.ok (some fp)) :
    (handleRequest fs rootDir (some rp) false
      = ServedResult.response 200 (contentTypeFor fp) (ResponseBody.fileStream fp)) ∧
    contentTypeFor fp = mimeLookup (extOfPath fp) ∧
    (∀ q : List String, extOfPath q = String.mk (lowerCL (extnameCL ((q.getLastD "").data)))) ∧
    mimeLookup ".html" = "text/html; charset=utf-8" ∧
    mimeLookup ".css" = "text/css; charset=utf-8" ∧
    mimeLookup ".js" = "application/javascript; charset=utf-8" ∧
    mimeLookup ".json" = "application/json; charset=utf-8" ∧
    mimeLookup ".png" = "image/png" ∧
    mimeLookup ".jpg" = "image/jpeg" ∧
    mimeLookup ".jpeg" = "image/jpeg" ∧
    mimeLookup ".gif" = "image/gif" ∧
    mimeLookup ".svg" = "image/svg+xml" ∧
    mimeLookup ".ico" = "image/x-icon" ∧
    mimeLookup ".txt" = "text/plain; charset=utf-8" ∧
    contentTypeFor ["x.HTML"] = "text/html; charset=utf-8" ∧
    contentTypeFor ["x.bin"] = "application/octet-stream" ∧
    (∀ e : String, e ∉ MIME_TYPES.map Prod.fst →
      mimeLookup e = "application/octet-stream") := by
  refine ⟨?_, rfl, fun _ => rfl, rfl, rfl, rfl, rfl, rfl, rfl, rfl, rfl, rfl, rfl, rfl,
    by decide, by decide, mimeLookup_default⟩
  rw [handleRequest_some fs rootDir rp false hne, hres, respondFor_file]

/-- C7 witness: `/app.js` resolves to `public/app.js` and is served with
`application/javascript; charset=utf-8`. -/
theorem claim7_witness :
    (("/app.js" : String) ≠ "") ∧
    resolveFilePath fsSite exRoot "/app.js"
      = Except.ok (some ["srv", "app", "public", "app.js"]) ∧
    handleRequest fsSite exRoot (some "/app.js") false
      = ServedResult.response 200 "application/javascript; charset=utf-8"
          (ResponseBody.fileStream ["srv", "app", "public", "app.js"]) :=
  ⟨by decide, rfl,
    (claim7_theorem fsSite exRoot "/app.js" ["srv", "app", "public", "app.js"]
      (by decide) rfl).1⟩

/-! ### Claim C8 -/

/-- C8: a request with a missing (`none`) or empty request path is
answered 400 `Bad Request`, with no further processing: the response is
the same for every filesystem state and stream behaviour (in particular
it is never 404 or 500 and the resolver's result is irrelevant). -/
theorem claim8_theorem (fs fs2 : Fs) (rootDir : List String) (se se2 : Bool) :
    handleRequest fs rootDir none se
      = ServedResult.response 400 "text/plain; charset=utf-8"
          (ResponseBody.text "Bad Request") ∧
    handleRequest fs rootDir (some "") se
      = ServedResult.response 400 "text/plain; charset=utf-8"
          (ResponseBody.text "Bad Request") ∧
    handleRequest fs rootDir none se = handleRequest fs2 rootDir none se2 ∧
    handleRequest fs rootDir (some "") se = handleRequest fs2 rootDir (some "") se2 :=
  ⟨rfl, rfl, rfl, rfl⟩

/-! ### Claim C9 -/

/-- C9 counterexample: `PORT=0` parses to the number 0, which is falsy,
so `parseInt(...) || 3000` yields 3000 — the numeric input "0" is *not*
used as given, contrary to the claim. -/
theorem claim9_counterexample :
    PORT (some "0") = 3000 ∧ (3000 : Int) ≠ 0 :=
  ⟨rfl, by decide⟩

/-- C9 (amended): the configured port is the integer value of the PORT
environment input, and defaults to 3000 exactly when that input is
absent, non-numeric, or parses to zero (`0` is falsy, so `|| 3000`
replaces it; any other numeric value, negative included, is used as
given). -/
theorem claim9_theorem :
    PORT none = 3000 ∧
    (∀ s : String, jsParseIntCL s.data = none → PORT (some s) = 3000) ∧
    (∀ s : String, jsParseIntCL s.data = some 0 → PORT (some s) = 3000) ∧
    (∀ (s : String) (v : Int), jsParseIntCL s.data = some v → v ≠ 0 →
      PORT (some s) = v) := by
  refine ⟨rfl, ?_, ?_, ?_⟩
  · intro s h
    show ((match jsParseIntCL s.data with
      | none => 3000
      | some v => if v = 0 then 3000 else v : Int)) = 3000
    rw [h]
  · intro s h
    show ((match jsParseIntCL s.data with
      | none => 3000
      | some v => if v = 0 then 3000 else v : Int)) = 3000
    rw [h]
    rfl
  · intro s v h hv
    show ((match jsParseIntCL s.data with
      | none => 3000
      | some v => if v = 0 then 3000 else v : Int)) = v
    rw [h]
    show (if v = 0 then 3000 else v) = v
    rw [if_neg hv]

/-- C9 witness: `PORT=8080` gives 8080; absent, non-numeric and zero
inputs give 3000. -/
theorem claim9_witness :
    jsParseIntCL "8080".data = some 8080 ∧
    PORT (some "8080") = 8080 ∧
    jsParseIntCL "abc".data = none ∧
    PORT (some "abc") = 3000 ∧
    jsParseIntCL "0".data = some 0 ∧
    PORT (some "0") = 3000 :=
  ⟨by decide, claim9_theorem.2.2.2 "8080" 8080 (by decide) (by decide),
    by decide, claim9_theorem.2.1 "abc" (by decide),
    by decide, claim9_theorem.2.2.1 "0" (by decide)⟩

/-! ### Claim C10 -/

/-- C10: when the resolver returns via the directory-index fallback, the
returned path ends in `index.html`, so the response content type is
computed from that file's `.html` extension — `text/html;
charset=utf-8` — and not from any extension in the original request path
(whose `.png`, say, would have given `image/png`). -/
theorem claim10_theorem (fs : Fs) (rootDir : List String) (rp : String) (p c : List String)
    (hne : rp ≠ "")
    (hres : resolveFilePath fs rootDir rp = Except.ok (some p))
    (hvia : p = c ++ ["index.html"]) :
    contentTypeFor p = "text/html; charset=utf-8" ∧
    handleRequest fs rootDir (some rp) false
      = ServedResult.response 200 "text/html; charset=utf-8" (ResponseBody.fileStream p) ∧
    mimeLookup ".png" = "image/png" := by
  have hct : contentTypeFor p = "text/html; charset=utf-8" := by
    rw [hvia]
    unfold contentTypeFor extOfPath
    rw [List.getLastD_concat]
    rfl
  refine ⟨hct, ?_, rfl⟩
  rw [handleRequest_some fs rootDir rp false hne, hres, respondFor_file, hct]

/-- C10 witness: requesting `/foo.png` where `public/foo.png` is a
directory containing an `index.html` file yields `text/html;
charset=utf-8`, not `image/png`. -/
theorem claim10_witness :
    (("/foo.png" : String) ≠ "") ∧
    resolveFilePath fsPng exRoot "/foo.png"
      = Except.ok (some ["srv", "app", "public", "foo.png", "index.html"]) ∧
    (["srv", "app", "public", "foo.png", "index.html"]
      = ["srv", "app", "public", "foo.png"] ++ ["index.html"]) ∧
    contentTypeFor ["srv", "app", "public", "foo.png", "index.html"]
      = "text/html; charset=utf-8" ∧
    handleRequest fsPng exRoot (some "/foo.png") false
      = ServedResult.response 200 "text/html; charset=utf-8"
          (ResponseBody.fileStream ["srv", "app", "public", "foo.png", "index.html"]) := by
  have h := claim10_theorem fsPng exRoot "/foo.png"
    ["srv", "app", "public", "foo.png", "index.html"]
    ["srv", "app", "public", "foo.png"] (by decide) rfl rfl
  exact ⟨by decide, rfl, rfl, h.1, h.2.1⟩

end StaticServer
